import Mathlib

/-!
Shallow embedding of the FitSchedule core (the session-ledger and recurrence
engine of the app context provider, the variant with a `sessions` credit-batch
ledger) and verification of the frozen claims about it.

Modelling conventions:
* ISO date strings (`YYYY-MM-DD`) are modelled as a day index `Nat` (days since
  the epoch); `1970-01-01` was a Thursday, so the JavaScript `getDay()` of day
  `d` is `(d + 4) % 7` (Sunday = 0).
* Wall-clock `HH:mm` strings are modelled as minutes since midnight; an
  instant is modelled as minutes since the epoch, so the end instant of an
  event is `date * 1440 + time + duration`.
* Optional string fields (`memberId?`, `groupId?`, `seriesId?`, `notes?`) are
  `Option String`; JavaScript truthiness tests on them are modelled as
  presence tests (ids produced by `generateId` are never the empty string).
* `Session.remaining` and `Session.total` are `Int`, since the JavaScript
  numbers could in principle go negative and the claims speak about
  non-negativity.
* The unbounded `while` loop of series expansion is modelled with explicit
  fuel; `none` models a run of the loop that has not terminated within the
  given number of iterations.
-/

inductive EvType where
  | person
  | group
deriving DecidableEq

inductive EvStatus where
  | scheduled
  | completed
  | skipped
deriving DecidableEq

structure Member where
  id : String
  name : String
  whatsapp : String
  createdAt : String
deriving DecidableEq

structure GroupSession where
  id : String
  name : String
  color : String
  memberIds : List String
  sessionsTotal : Nat
deriving DecidableEq

structure Event where
  id : String
  type : EvType
  memberId : Option String
  groupId : Option String
  date : Nat
  time : Nat
  duration : Nat
  notes : Option String
  status : EvStatus
  seriesId : Option String
deriving DecidableEq

structure Series where
  id : String
  type : EvType
  memberId : Option String
  groupId : Option String
  weekdays : List Nat
  startDate : Nat
  time : Nat
  duration : Nat
  sessionsTotal : Nat
  notes : Option String
deriving DecidableEq

structure Session where
  id : String
  memberId : String
  total : Int
  remaining : Int
  createdAt : String
deriving DecidableEq

structure UserProfile where
  name : String
  avatarUri : Option String
  onboardingComplete : Bool
deriving DecidableEq

structure AppSettings where
  calendarViewType : String
deriving DecidableEq

structure AppData where
  profile : UserProfile
  settings : AppSettings
  members : List Member
  groups : List GroupSession
  events : List Event
  series : List Series
  sessions : List Session
deriving DecidableEq

/-- End instant of an occurrence, in minutes since the epoch:
`new Date(date + 'T' + time)` plus `duration` minutes. -/
def endInstant (e : Event) : Nat :=
  e.date * 1440 + e.time + e.duration

/-- The member ids an event's completion affects: the single member of a
person event, or the member set of the referenced group (empty when the
referenced group does not exist). -/
def eventMemberIds (s : AppData) (e : Event) : List String :=
  match e.type with
  | EvType.person =>
    match e.memberId with
    | some m => [m]
    | none => []
  | EvType.group =>
    match e.groupId with
    | some g =>
      match s.groups.find? (fun grp => grp.id == g) with
      | some grp => grp.memberIds
      | none => []
    | none => []

/-- `markEventCompleted`: find the event; if missing or already completed, do
nothing; otherwise decrement by one every session of an affected member that
still has remaining credit, and set the event's status to completed. -/
def markEventCompleted (s : AppData) (id : String) : AppData :=
  match s.events.find? (fun e => e.id == id) with
  | none => s
  | some event =>
    if event.status = EvStatus.completed then s
    else
      let memberIds := eventMemberIds s event
      let updatedSessions := s.sessions.map (fun sess =>
        if memberIds.contains sess.memberId ∧ 0 < sess.remaining then
          { sess with remaining := sess.remaining - 1 }
        else sess)
      { s with
        events := s.events.map (fun e =>
          if e.id == id then { e with status := EvStatus.completed } else e),
        sessions := updatedSessions }

/-- `markEventSkipped`: `updateEvent(id, { status: 'skipped' })`, with no
guard on the current status. -/
def markEventSkipped (s : AppData) (id : String) : AppData :=
  { s with events := s.events.map (fun e =>
      if e.id == id then { e with status := EvStatus.skipped } else e) }

/-- One step of the completion sweep's event map: a scheduled event whose end
instant is strictly before `now` becomes completed; anything else is kept. -/
def sweepEvent (now : Nat) (e : Event) : Event :=
  if e.status = EvStatus.scheduled ∧ endInstant e < now then
    { e with status := EvStatus.completed }
  else e

/-- The ids pushed into `completedEventIds` during the sweep's event map: the
scheduled events whose end instant is strictly before `now`, in list order. -/
def transitionedIds (s : AppData) (now : Nat) : List String :=
  (s.events.filter (fun e =>
    decide (e.status = EvStatus.scheduled ∧ endInstant e < now))).map (fun e => e.id)

/-- The member ids collected from the newly completed events (the sweep's
`affectedMemberIds` set, as a list with possible repetitions; only membership
is ever used). -/
def affectedMemberIds (s : AppData) (ids : List String) : List String :=
  ids.flatMap (fun eid =>
    match s.events.find? (fun e => e.id == eid) with
    | none => []
    | some e => eventMemberIds s e)

/-- How many of the newly completed events involve the given member (the
sweep's `memberEventCount`). -/
def memberEventCount (s : AppData) (memberId : String) (ids : List String) : Nat :=
  (ids.filter (fun eid =>
    match s.events.find? (fun e => e.id == eid) with
    | none => false
    | some e =>
      match e.type with
      | EvType.person => e.memberId == some memberId
      | EvType.group =>
        match e.groupId with
        | some g =>
          match s.groups.find? (fun grp => grp.id == g) with
          | some grp => grp.memberIds.contains memberId
          | none => false
        | none => false)).length

/-- `processCompletedEvents`, with the ambient clock (`new Date()`) made an
explicit parameter `now`: complete every scheduled event that has elapsed; if
none did, return the snapshot unchanged; otherwise debit every session of an
affected member with remaining credit by that member's count of newly
completed events, clamped at zero. -/
def processCompletedEvents (s : AppData) (now : Nat) : AppData :=
  let updatedEvents := s.events.map (sweepEvent now)
  let completedEventIds := transitionedIds s now
  if completedEventIds = [] then s
  else
    let affected := affectedMemberIds s completedEventIds
    let updatedSessions := s.sessions.map (fun sess =>
      if affected.contains sess.memberId ∧ 0 < sess.remaining then
        let debit : Int := memberEventCount s sess.memberId completedEventIds
        { sess with remaining := max 0 (sess.remaining - debit) }
      else sess)
    { s with events := updatedEvents, sessions := updatedSessions }

/-- Step 5 of the member-delete cascade: remove the member id from every
group's member set, then drop the groups whose member set became empty
(`.map(...).filter((g) => g.memberIds.length > 0)`). -/
def survivingGroups (s : AppData) (id : String) : List GroupSession :=
  (s.groups.map (fun g =>
    { g with memberIds := g.memberIds.filter (fun m => m != id) })).filter
      (fun g => decide (0 < g.memberIds.length))

/-- `deleteMember`: the cascading cleanup, computed as one combined
transformation exactly in the source's step order. -/
def deleteMember (s : AppData) (id : String) : AppData :=
  let updatedMembers := s.members.filter (fun m => m.id != id)
  let updatedEvents := s.events.filter (fun e => e.memberId != some id)
  let updatedSeries := s.series.filter (fun sr => sr.memberId != some id)
  let updatedSessions := s.sessions.filter (fun x => x.memberId != id)
  let updatedGroups := survivingGroups s id
  let remainingGroupIds := updatedGroups.map (fun g => g.id)
  let finalEvents := updatedEvents.filter (fun e =>
    match e.groupId with
    | none => true
    | some g => remainingGroupIds.contains g)
  let finalSeries := updatedSeries.filter (fun sr =>
    match sr.groupId with
    | none => true
    | some g => remainingGroupIds.contains g)
  { s with
    members := updatedMembers
    events := finalEvents
    series := finalSeries
    groups := updatedGroups
    sessions := updatedSessions }

/-- `deleteGroup`: removes only the group record itself. -/
def deleteGroup (s : AppData) (id : String) : AppData :=
  { s with groups := s.groups.filter (fun g => g.id != id) }

/-- JavaScript `getDay()` of a day index: `1970-01-01` (day 0) was a
Thursday. -/
def jsWeekday (d : Nat) : Nat :=
  (d + 4) % 7

/-- The series-expansion `while` loop, with explicit fuel (one unit per loop
iteration, i.e. per calendar day visited); returns the matched dates in walk
order, or `none` when the loop has not finished within `fuel` iterations. -/
def seriesWalk (weekdays : List Nat) (total : Nat) : Nat → Nat → Nat → Option (List Nat)
  | 0, _, created =>
    if total ≤ created then some [] else none
  | fuel + 1, d, created =>
    if total ≤ created then some []
    else if weekdays.contains (jsWeekday d) then
      (seriesWalk weekdays total fuel (d + 1) (created + 1)).map (fun ds => d :: ds)
    else
      seriesWalk weekdays total fuel (d + 1) created

/-- The input of `createSeries` (`Omit<Series, 'id'>`). -/
structure SeriesInput where
  type : EvType
  memberId : Option String
  groupId : Option String
  weekdays : List Nat
  startDate : Nat
  time : Nat
  duration : Nat
  sessionsTotal : Nat
  notes : Option String
deriving DecidableEq

/-- The events pushed during the expansion walk: one scheduled event per
matched date, carrying the series' fields and the shared `seriesId`; the
`i`-th generated event receives id `eventId i` (modelling `generateId()`). -/
def mkSeriesEvents (rule : SeriesInput) (sid : String) (eventId : Nat → String) :
    List Nat → Nat → List Event
  | [], _ => []
  | d :: ds, i =>
    { id := eventId i
      type := rule.type
      memberId := rule.memberId
      groupId := rule.groupId
      date := d
      time := rule.time
      duration := rule.duration
      notes := rule.notes
      status := EvStatus.scheduled
      seriesId := some sid } :: mkSeriesEvents rule sid eventId ds (i + 1)

/-- The series record `createSeries` persists: `{ ...series, id: generateId() }`. -/
def mkSeries (rule : SeriesInput) (sid : String) : Series :=
  { id := sid
    type := rule.type
    memberId := rule.memberId
    groupId := rule.groupId
    weekdays := rule.weekdays
    startDate := rule.startDate
    time := rule.time
    duration := rule.duration
    sessionsTotal := rule.sessionsTotal
    notes := rule.notes }

/-- `createSeries`: expand the rule (no input validation in the source) and
append the new series record and the generated events to the snapshot.
`sid` models the `generateId()` for the series, `eventId` the per-event ids,
and `fuel` bounds the walk (`none` models its non-termination). -/
def createSeries (s : AppData) (rule : SeriesInput) (sid : String)
    (eventId : Nat → String) (fuel : Nat) : Option AppData :=
  match seriesWalk rule.weekdays rule.sessionsTotal fuel rule.startDate 0 with
  | none => none
  | some dates =>
    some { s with
      series := s.series ++ [mkSeries rule sid]
      events := s.events ++ mkSeriesEvents rule sid eventId dates 0 }

/-! ### Concrete fixtures used by counterexamples and witnesses -/

def cProfile : UserProfile :=
  { name := "trainer"
    avatarUri := none
    onboardingComplete := true }

def cSettings : AppSettings :=
  { calendarViewType := "day" }

def cMember1 : Member :=
  { id := "m1"
    name := "Alice"
    whatsapp := "123"
    createdAt := "2024-01-01" }

def cSess1 : Session :=
  { id := "s1"
    memberId := "m1"
    total := 5
    remaining := 1
    createdAt := "2024-01-01" }

def cSess2 : Session :=
  { id := "s2"
    memberId := "m1"
    total := 5
    remaining := 1
    createdAt := "2024-02-01" }

/-- A scheduled person event for `m1`; its end instant is
`10 * 1440 + 60 + 30 = 14490`. -/
def cEvScheduled : Event :=
  { id := "e1"
    type := EvType.person
    memberId := some "m1"
    groupId := none
    date := 10
    time := 60
    duration := 30
    notes := none
    status := EvStatus.scheduled
    seriesId := none }

def cSnapLedger : AppData :=
  { profile := cProfile
    settings := cSettings
    members := [cMember1]
    groups := []
    events := [cEvScheduled]
    series := []
    sessions := [cSess1, cSess2] }

def cEvCompleted : Event :=
  { cEvScheduled with status := EvStatus.completed }

def cSnapCompleted : AppData :=
  { cSnapLedger with events := [cEvCompleted] }

def cEvSkipped : Event :=
  { cEvScheduled with status := EvStatus.skipped }

def cSnapSkipped : AppData :=
  { cSnapLedger with events := [cEvSkipped] }

/-- A group event whose `groupId` references no existing group. -/
def cEvDangling : Event :=
  { id := "e2"
    type := EvType.group
    memberId := none
    groupId := some "gx"
    date := 1
    time := 0
    duration := 30
    notes := none
    status := EvStatus.scheduled
    seriesId := none }

def cSnapDangling : AppData :=
  { profile := cProfile
    settings := cSettings
    members := [cMember1]
    groups := []
    events := [cEvDangling]
    series := []
    sessions := [] }

def cGroup1 : GroupSession :=
  { id := "g1"
    name := "morning"
    color := "red"
    memberIds := ["m1"]
    sessionsTotal := 3 }

/-- A group event referencing the existing group `g1`. -/
def cEvGroupRef : Event :=
  { cEvDangling with id := "e3", groupId := some "g1" }

def cSnapGroupRef : AppData :=
  { cSnapDangling with groups := [cGroup1], events := [cEvGroupRef] }

def cSnapNoEvents : AppData :=
  { profile := cProfile
    settings := cSettings
    members := []
    groups := []
    events := []
    series := []
    sessions := [] }

def cRuleZero : SeriesInput :=
  { type := EvType.person
    memberId := some "m1"
    groupId := none
    weekdays := []
    startDate := 0
    time := 0
    duration := 60
    sessionsTotal := 0
    notes := none }

/-- The spec's worked example: weekdays Monday and Wednesday, starting
Monday 2024-01-01 (day index 19723), three occurrences. -/
def cRule13 : SeriesInput :=
  { type := EvType.person
    memberId := some "m1"
    groupId := none
    weekdays := [1, 3]
    startDate := 19723
    time := 540
    duration := 60
    sessionsTotal := 3
    notes := none }

/-! ### Helper lemmas about the completion sweep -/

theorem endInstant_set_status (e : Event) (st : EvStatus) :
    endInstant { e with status := st } = endInstant e := rfl

theorem sweepEvent_of_not_elapsed (t : Nat) (e : Event)
    (h : ¬ (e.status = EvStatus.scheduled ∧ endInstant e < t)) :
    sweepEvent t e = e := by
  simp [sweepEvent, h]

theorem sweepEvent_of_elapsed (t : Nat) (e : Event)
    (h : e.status = EvStatus.scheduled ∧ endInstant e < t) :
    sweepEvent t e = { e with status := EvStatus.completed } := by
  simp [sweepEvent, h]

theorem transitionedIds_eq_nil_iff (s : AppData) (t : Nat) :
    transitionedIds s t = [] ↔
      ∀ e ∈ s.events, ¬ (e.status = EvStatus.scheduled ∧ endInstant e < t) := by
  simp [transitionedIds, List.map_eq_nil_iff, List.filter_eq_nil_iff]

theorem map_sweepEvent_of_nil (s : AppData) (t : Nat)
    (h : transitionedIds s t = []) :
    s.events.map (sweepEvent t) = s.events := by
  rw [transitionedIds_eq_nil_iff] at h
  have hid : ∀ e ∈ s.events, sweepEvent t e = id e :=
    fun e he => sweepEvent_of_not_elapsed t e (h e he)
  rw [List.map_congr_left hid, List.map_id]

theorem processCompletedEvents_of_nil (s : AppData) (t : Nat)
    (h : transitionedIds s t = []) :
    processCompletedEvents s t = s := by
  simp [processCompletedEvents, h]

theorem processCompletedEvents_events (s : AppData) (t : Nat) :
    (processCompletedEvents s t).events = s.events.map (sweepEvent t) := by
  by_cases h : transitionedIds s t = []
  · rw [processCompletedEvents_of_nil s t h, map_sweepEvent_of_nil s t h]
  · simp [processCompletedEvents, h]

theorem transitionedIds_processed (s : AppData) (t : Nat) :
    transitionedIds (processCompletedEvents s t) t = [] := by
  rw [transitionedIds_eq_nil_iff]
  intro e he
  rw [processCompletedEvents_events] at he
  rcases List.mem_map.mp he with ⟨a, _, rfl⟩
  by_cases ha : a.status = EvStatus.scheduled ∧ endInstant a < t
  · rw [sweepEvent_of_elapsed t a ha]
    intro hcontra
    exact absurd hcontra.1 (by simp)
  · rw [sweepEvent_of_not_elapsed t a ha]
    exact ha

/-- Claim C10: for every snapshot and instant, the completion sweep modifies
at most the `events` and `sessions` collections; the `members`, `groups`,
`series`, `profile` and `settings` fields of the result are identical to
those of the input snapshot. -/
theorem claim_c10 (s : AppData) (t : Nat) :
    (processCompletedEvents s t).members = s.members
    ∧ (processCompletedEvents s t).groups = s.groups
    ∧ (processCompletedEvents s t).series = s.series
    ∧ (processCompletedEvents s t).profile = s.profile
    ∧ (processCompletedEvents s t).settings = s.settings := by
  by_cases h : transitionedIds s t = [] <;> simp [processCompletedEvents, h]

/-! ### Claim C2: sweep idempotence and exactly-once debiting -/

/-- Claim C2: the completion sweep is idempotent — running it twice at the
same instant equals running it once; a sweep that transitions nothing leaves
the snapshot unchanged (so debits happen only when something transitions);
and every id in the sweep's newly-completed list comes from an event that was
scheduled (and elapsed) in the input snapshot, so an occurrence already
completed before the sweep is never debited again. -/
theorem claim_c2 (s : AppData) (t : Nat) :
    processCompletedEvents (processCompletedEvents s t) t = processCompletedEvents s t
    ∧ (transitionedIds s t = [] → processCompletedEvents s t = s)
    ∧ (∀ i ∈ transitionedIds s t, ∃ e ∈ s.events,
        e.id = i ∧ e.status = EvStatus.scheduled ∧ endInstant e < t) := by
  refine ⟨processCompletedEvents_of_nil _ t (transitionedIds_processed s t),
    processCompletedEvents_of_nil s t, ?_⟩
  intro i hi
  rcases List.mem_map.mp hi with ⟨e, he, rfl⟩
  rcases List.mem_filter.mp he with ⟨hmem, hcond⟩
  rcases of_decide_eq_true hcond with ⟨hst, hlt⟩
  exact ⟨e, hmem, rfl, hst, hlt⟩

theorem claim_c2_witness :
    processCompletedEvents cSnapNoEvents 0 = cSnapNoEvents :=
  (claim_c2 cSnapNoEvents 0).2.1 rfl

/-! ### Claim C5 (corrected): the boundary comparison is strict -/

/-- Claim C5 counterexample: a scheduled event whose end instant equals `now`
(`14490`) is left scheduled by the sweep, contradicting the claim that the
comparison is `end instant ≤ now`. -/
theorem claim_c5_cex :
    cEvScheduled.status = EvStatus.scheduled
    ∧ endInstant cEvScheduled = 14490
    ∧ (processCompletedEvents cSnapLedger 14490).events = [cEvScheduled] := by
  decide

/-- Claim C5 as amended: the sweep applies `sweepEvent` to every event, and
`sweepEvent` completes a scheduled event exactly when its end instant is
strictly before `now`; a scheduled event ending at or after `now` — in
particular exactly at `now` — is left unchanged. -/
theorem claim_c5 (s : AppData) (t : Nat) :
    (processCompletedEvents s t).events = s.events.map (sweepEvent t)
    ∧ (∀ e : Event, e.status = EvStatus.scheduled → t ≤ endInstant e →
        sweepEvent t e = e)
    ∧ (∀ e : Event, e.status = EvStatus.scheduled → endInstant e < t →
        sweepEvent t e = { e with status := EvStatus.completed }) := by
  refine ⟨processCompletedEvents_events s t, ?_, ?_⟩
  · intro e _ hle
    exact sweepEvent_of_not_elapsed t e (fun hc => absurd hc.2 (not_lt.mpr hle))
  · intro e hst hlt
    exact sweepEvent_of_elapsed t e ⟨hst, hlt⟩

theorem claim_c5_witness :
    sweepEvent 14490 cEvScheduled = cEvScheduled :=
  (claim_c5 cSnapLedger 14490).2.1 cEvScheduled (by decide) (by decide)

/-! ### Session-shape lemmas for the invariant claims -/

theorem markEventCompleted_sessions_shape (s : AppData) (eid : String) :
    ∀ y ∈ (markEventCompleted s eid).sessions, ∃ x ∈ s.sessions,
      y = x ∨ (0 < x.remaining ∧ y = { x with remaining := x.remaining - 1 }) := by
  intro y hy
  cases hf : s.events.find? (fun e => e.id == eid) with
  | none =>
    simp only [markEventCompleted, hf] at hy
    exact ⟨y, hy, Or.inl rfl⟩
  | some ev =>
    by_cases hst : ev.status = EvStatus.completed
    · simp only [markEventCompleted, hf, if_pos hst] at hy
      exact ⟨y, hy, Or.inl rfl⟩
    · simp only [markEventCompleted, hf, if_neg hst] at hy
      rcases List.mem_map.mp hy with ⟨x, hx, rfl⟩
      by_cases hc : (eventMemberIds s ev).contains x.memberId ∧ 0 < x.remaining
      · exact ⟨x, hx, Or.inr ⟨hc.2, by rw [if_pos hc]⟩⟩
      · exact ⟨x, hx, Or.inl (by rw [if_neg hc])⟩

theorem processCompletedEvents_sessions_shape (s : AppData) (t : Nat) :
    ∀ y ∈ (processCompletedEvents s t).sessions, ∃ x ∈ s.sessions,
      y = x ∨ (0 < x.remaining ∧
        ∃ c : Int, 0 ≤ c ∧ y = { x with remaining := max 0 (x.remaining - c) }) := by
  intro y hy
  by_cases h : transitionedIds s t = []
  · rw [processCompletedEvents_of_nil s t h] at hy
    exact ⟨y, hy, Or.inl rfl⟩
  · simp only [processCompletedEvents, if_neg h] at hy
    rcases List.mem_map.mp hy with ⟨x, hx, rfl⟩
    by_cases hc : (affectedMemberIds s (transitionedIds s t)).contains x.memberId
        ∧ 0 < x.remaining
    · refine ⟨x, hx, Or.inr ⟨hc.2, ⟨(memberEventCount s x.memberId (transitionedIds s t) : Int),
        Int.ofNat_nonneg _, by rw [if_pos hc]⟩⟩⟩
    · exact ⟨x, hx, Or.inl (by rw [if_neg hc])⟩

/-! ### Claim C6: the ledger invariant is preserved -/

/-- Claim C6: if every session satisfies `0 ≤ remaining ≤ total`, then so does
every session after `markEventCompleted` and after the completion sweep; and a
member all of whose sessions are exhausted (`remaining = 0`) still has all
sessions at `remaining = 0` afterwards — completion is a no-op on them. -/
theorem claim_c6 (s : AppData) (eid : String) (t : Nat)
    (hinv : ∀ x ∈ s.sessions, 0 ≤ x.remaining ∧ x.remaining ≤ x.total) :
    (∀ y ∈ (markEventCompleted s eid).sessions, 0 ≤ y.remaining ∧ y.remaining ≤ y.total)
    ∧ (∀ y ∈ (processCompletedEvents s t).sessions, 0 ≤ y.remaining ∧ y.remaining ≤ y.total)
    ∧ ∀ m : String, (∀ x ∈ s.sessions, x.memberId = m → x.remaining = 0) →
        (∀ y ∈ (markEventCompleted s eid).sessions, y.memberId = m → y.remaining = 0)
        ∧ (∀ y ∈ (processCompletedEvents s t).sessions, y.memberId = m → y.remaining = 0) := by
  refine ⟨?_, ?_, ?_⟩
  · intro y hy
    rcases markEventCompleted_sessions_shape s eid y hy with ⟨x, hx, hsh⟩
    rcases hinv x hx with ⟨h0, ht⟩
    rcases hsh with rfl | ⟨hpos, rfl⟩
    · exact ⟨h0, ht⟩
    · exact ⟨by simp; omega, by simp; omega⟩
  · intro y hy
    rcases processCompletedEvents_sessions_shape s t y hy with ⟨x, hx, hsh⟩
    rcases hinv x hx with ⟨h0, ht⟩
    rcases hsh with rfl | ⟨hpos, c, hc0, rfl⟩
    · exact ⟨h0, ht⟩
    · have h1 : (0 : Int) ≤ x.total := h0.trans ht
      have h2 : x.remaining - c ≤ x.total := by omega
      constructor
      · exact le_max_left 0 (x.remaining - c)
      · exact max_le h1 h2
  · intro m hm
    constructor
    · intro y hy hym
      rcases markEventCompleted_sessions_shape s eid y hy with ⟨x, hx, hsh⟩
      rcases hsh with rfl | ⟨hpos, rfl⟩
      · exact hm y hx hym
      · exact absurd (hm x hx (by simpa using hym)) (by omega)
    · intro y hy hym
      rcases processCompletedEvents_sessions_shape s t y hy with ⟨x, hx, hsh⟩
      rcases hsh with rfl | ⟨hpos, c, hc0, rfl⟩
      · exact hm y hx hym
      · exact absurd (hm x hx (by simpa using hym)) (by omega)

theorem claim_c6_witness :
    (0 : Int) ≤ ({ cSess1 with remaining := 0 } : Session).remaining
      ∧ ({ cSess1 with remaining := 0 } : Session).remaining
        ≤ ({ cSess1 with remaining := 0 } : Session).total :=
  (claim_c6 cSnapLedger "e1" 0 (by decide)).1 { cSess1 with remaining := 0 } (by decide)

/-! ### Claim C1 (corrected): debits hit every credit batch, not the oldest -/

/-- Claim C1 counterexample: member `m1` has two credit batches, `cSess1`
created before `cSess2`, both with `remaining = 1`; completing `m1`'s event
decrements BOTH batches to `0`, whereas the claim says only the oldest batch
changes and every other session record stays unchanged. -/
theorem claim_c1_cex :
    cSess1.memberId = "m1" ∧ cSess2.memberId = "m1"
    ∧ cSess1.createdAt = "2024-01-01" ∧ cSess2.createdAt = "2024-02-01"
    ∧ cSnapLedger.sessions = [cSess1, cSess2]
    ∧ cSess2.remaining = 1
    ∧ (markEventCompleted cSnapLedger "e1").sessions
        = [{ cSess1 with remaining := 0 }, { cSess2 with remaining := 0 }] := by
  decide

/-- Claim C1 as amended: a completion debit is not routed to a single oldest
batch; `markEventCompleted` decrements by exactly 1 EVERY session of an
affected member that has `remaining > 0` (others unchanged), and the sweep
decrements every such session by the member's count of newly completed
events, clamped at zero. -/
theorem claim_c1 (s : AppData) (t : Nat) (eid : String) (ev : Event)
    (hfind : s.events.find? (fun e => e.id == eid) = some ev)
    (hst : ev.status ≠ EvStatus.completed) :
    (markEventCompleted s eid).sessions = s.sessions.map (fun x =>
        if x.memberId ∈ eventMemberIds s ev ∧ 0 < x.remaining then
          { x with remaining := x.remaining - 1 } else x)
    ∧ (transitionedIds s t ≠ [] →
        (processCompletedEvents s t).sessions = s.sessions.map (fun x =>
          if x.memberId ∈ affectedMemberIds s (transitionedIds s t) ∧ 0 < x.remaining then
            { x with remaining := max 0 (x.remaining - (memberEventCount s x.memberId (transitionedIds s t) : Int)) }
          else x)) := by
  constructor
  · simp only [markEventCompleted, hfind, if_neg hst]
    apply List.map_congr_left
    intro x _
    by_cases hc : x.memberId ∈ eventMemberIds s ev ∧ 0 < x.remaining
    · rw [if_pos ⟨List.elem_iff.mpr hc.1, hc.2⟩, if_pos hc]
    · rw [if_neg (fun hcontra => hc ⟨List.elem_iff.mp hcontra.1, hcontra.2⟩), if_neg hc]
  · intro htr
    simp only [processCompletedEvents, if_neg htr]
    apply List.map_congr_left
    intro x _
    by_cases hc : x.memberId ∈ affectedMemberIds s (transitionedIds s t) ∧ 0 < x.remaining
    · rw [if_pos ⟨List.elem_iff.mpr hc.1, hc.2⟩, if_pos hc]
    · rw [if_neg (fun hcontra => hc ⟨List.elem_iff.mp hcontra.1, hcontra.2⟩), if_neg hc]

theorem claim_c1_witness :
    (markEventCompleted cSnapLedger "e1").sessions = cSnapLedger.sessions.map (fun x =>
      if x.memberId ∈ eventMemberIds cSnapLedger cEvScheduled ∧ 0 < x.remaining then
        { x with remaining := x.remaining - 1 } else x) :=
  (claim_c1 cSnapLedger 0 "e1" cEvScheduled (by decide) (by decide)).1

/-! ### Claim C8 (corrected): the manual operations lack terminal-state guards -/

/-- Claim C8 counterexample: `markEventSkipped` moves an already-completed
event to `skipped`, a transition out of a terminal state the claim forbids. -/
theorem claim_c8_cex :
    cEvCompleted.status = EvStatus.completed
    ∧ cSnapCompleted.events = [cEvCompleted]
    ∧ (markEventSkipped cSnapCompleted "e1").events.map Event.status = [EvStatus.skipped] := by
  decide

/-- Claim C8 as amended: the completion sweep is the only guarded operation —
it maps every event through `sweepEvent`, which never touches an event that is
not scheduled and moves a scheduled event only to completed.
`markEventCompleted` leaves the snapshot unchanged when the target is already
completed, but it has no guard against `skipped` (a skipped event would be
completed and debited); `markEventSkipped` has no guard at all and sets the
target's status to `skipped` whatever it was. -/
theorem claim_c8 (s : AppData) (t : Nat) (id : String) (ev : Event) :
    ((processCompletedEvents s t).events = s.events.map (sweepEvent t)
      ∧ (∀ e : Event, e.status ≠ EvStatus.scheduled → sweepEvent t e = e)
      ∧ (∀ e : Event, sweepEvent t e = e ∨
          (e.status = EvStatus.scheduled
            ∧ sweepEvent t e = { e with status := EvStatus.completed })))
    ∧ (s.events.find? (fun e => e.id == id) = some ev → ev.status = EvStatus.completed →
        markEventCompleted s id = s)
    ∧ (s.events.find? (fun e => e.id == id) = some ev → ev.status = EvStatus.skipped →
        (markEventCompleted s id).events = s.events.map (fun e =>
            if e.id == id then { e with status := EvStatus.completed } else e)
        ∧ (markEventCompleted s id).sessions = s.sessions.map (fun x =>
            if (eventMemberIds s ev).contains x.memberId ∧ 0 < x.remaining then
              { x with remaining := x.remaining - 1 } else x))
    ∧ (markEventSkipped s id).events = s.events.map (fun e =>
        if e.id == id then { e with status := EvStatus.skipped } else e) := by
  refine ⟨⟨processCompletedEvents_events s t, ?_, ?_⟩, ?_, ?_, rfl⟩
  · intro e hns
    exact sweepEvent_of_not_elapsed t e (fun hc => hns hc.1)
  · intro e
    by_cases hc : e.status = EvStatus.scheduled ∧ endInstant e < t
    · exact Or.inr ⟨hc.1, sweepEvent_of_elapsed t e hc⟩
    · exact Or.inl (sweepEvent_of_not_elapsed t e hc)
  · intro hfind hcomp
    simp [markEventCompleted, hfind, hcomp]
  · intro hfind hsk
    have hne : ev.status ≠ EvStatus.completed := by
      rw [hsk]
      intro hc
      cases hc
    constructor
    · simp only [markEventCompleted, hfind, if_neg hne]
    · simp only [markEventCompleted, hfind, if_neg hne]

theorem claim_c8_witness :
    markEventCompleted cSnapCompleted "e1" = cSnapCompleted
    ∧ ((markEventCompleted cSnapSkipped "e1").events = cSnapSkipped.events.map (fun e =>
          if e.id == "e1" then { e with status := EvStatus.completed } else e)
        ∧ (markEventCompleted cSnapSkipped "e1").sessions = cSnapSkipped.sessions.map (fun x =>
            if (eventMemberIds cSnapSkipped cEvSkipped).contains x.memberId ∧ 0 < x.remaining then
              { x with remaining := x.remaining - 1 } else x)) :=
  ⟨(claim_c8 cSnapCompleted 0 "e1" cEvCompleted).2.1 (by decide) (by decide),
    (claim_c8 cSnapSkipped 0 "e1" cEvSkipped).2.2.1 (by decide) (by decide)⟩

/-! ### Claim C9 (code bug): deleteGroup leaves dangling references -/

/-- Claim C9 evaluated at the failing input: the snapshot holds group `g1`
and an event referencing it; `deleteGroup` removes the group but the event
keeps `groupId = "g1"`, a dangling reference to a group that no longer
exists — the spec's contract for group deletion is not implemented. -/
theorem claim_c9_bug :
    cSnapGroupRef.groups = [cGroup1]
    ∧ cGroup1.id = "g1"
    ∧ cEvGroupRef.groupId = some "g1"
    ∧ (deleteGroup cSnapGroupRef "g1").groups = []
    ∧ (deleteGroup cSnapGroupRef "g1").events = [cEvGroupRef]
    ∧ (deleteGroup cSnapGroupRef "g1").series = cSnapGroupRef.series := by
  decide

/-! ### Claim C7 (corrected): member-delete cascade, exact characterization -/

/-- Claim C7 counterexample: the snapshot has no groups at all, and an event
whose `groupId` points at the nonexistent group `"gx"` (`memberId` absent).
Deleting member `m1` removes that event, although it neither belongs to `m1`
nor references any group removed in the step — the code keeps only events
whose `groupId` is among the surviving groups' ids. -/
theorem claim_c7_cex :
    cSnapDangling.events = [cEvDangling]
    ∧ cEvDangling.memberId = none
    ∧ cSnapDangling.groups = []
    ∧ survivingGroups cSnapDangling "m1" = []
    ∧ (deleteMember cSnapDangling "m1").events = [] := by
  decide

/-- Claim C7 as amended: `deleteMember` removes the member, their events,
series and sessions, strips the id from every group and drops emptied groups;
and it removes every event and series whose `groupId` is not the id of a
surviving group — that covers both groups removed in this step and `groupId`
values that match no existing group. Everything else is retained. -/
theorem claim_c7 (s : AppData) (id : String) :
    (deleteMember s id).members = s.members.filter (fun m => m.id != id)
    ∧ (deleteMember s id).sessions = s.sessions.filter (fun x => x.memberId != id)
    ∧ (deleteMember s id).groups = survivingGroups s id
    ∧ (∀ g ∈ (deleteMember s id).groups, id ∉ g.memberIds ∧ g.memberIds ≠ [])
    ∧ (∀ e : Event, e ∈ (deleteMember s id).events ↔
        e ∈ s.events ∧ e.memberId ≠ some id ∧
          ∀ gid, e.groupId = some gid → gid ∈ (survivingGroups s id).map GroupSession.id)
    ∧ (∀ sr : Series, sr ∈ (deleteMember s id).series ↔
        sr ∈ s.series ∧ sr.memberId ≠ some id ∧
          ∀ gid, sr.groupId = some gid → gid ∈ (survivingGroups s id).map GroupSession.id) := by
  refine ⟨rfl, rfl, rfl, ?_, ?_, ?_⟩
  · intro g hg
    rcases List.mem_filter.mp hg with ⟨hmem, hlen⟩
    rcases List.mem_map.mp hmem with ⟨g0, _, rfl⟩
    constructor
    · intro hid
      rcases List.mem_filter.mp hid with ⟨_, hpred⟩
      simp at hpred
    · intro hnil
      have hnil2 : g0.memberIds.filter (fun m => m != id) = [] := hnil
      rw [hnil2] at hlen
      simp at hlen
  · intro e
    constructor
    · intro he
      rcases List.mem_filter.mp he with ⟨he1, hp2⟩
      rcases List.mem_filter.mp he1 with ⟨hmem, hp1⟩
      refine ⟨hmem, by simpa using hp1, ?_⟩
      intro gid hgid
      rw [hgid] at hp2
      simpa [survivingGroups] using hp2
    · rintro ⟨hmem, hp1, hp2⟩
      refine List.mem_filter.mpr ⟨List.mem_filter.mpr ⟨hmem, by simpa using hp1⟩, ?_⟩
      cases hg : e.groupId with
      | none => simp
      | some gid => simpa [survivingGroups] using hp2 gid hg
  · intro sr
    constructor
    · intro hsr
      rcases List.mem_filter.mp hsr with ⟨hs1, hp2⟩
      rcases List.mem_filter.mp hs1 with ⟨hmem, hp1⟩
      refine ⟨hmem, by simpa using hp1, ?_⟩
      intro gid hgid
      rw [hgid] at hp2
      simpa [survivingGroups] using hp2
    · rintro ⟨hmem, hp1, hp2⟩
      refine List.mem_filter.mpr ⟨List.mem_filter.mpr ⟨hmem, by simpa using hp1⟩, ?_⟩
      cases hg : sr.groupId with
      | none => simp
      | some gid => simpa [survivingGroups] using hp2 gid hg

/-! ### Lemmas about the series-expansion walk -/

theorem exists_match_within_week (weekdays : List Nat)
    (hex : ∃ w ∈ weekdays, w < 7) (d : Nat) :
    ∃ k, k < 7 ∧ weekdays.contains (jsWeekday (d + k)) = true := by
  rcases hex with ⟨w, hw, hw7⟩
  refine ⟨(w + 7 - (d + 4) % 7) % 7, Nat.mod_lt _ (by norm_num), ?_⟩
  have hwk : jsWeekday (d + (w + 7 - (d + 4) % 7) % 7) = w := by
    unfold jsWeekday
    omega
  rw [hwk]
  exact List.elem_iff.mpr hw

theorem seriesWalk_done (weekdays : List Nat) (total f d created : Nat)
    (h : total ≤ created) :
    seriesWalk weekdays total f d created = some [] := by
  cases f <;> simp [seriesWalk, h]

theorem seriesWalk_skip (weekdays : List Nat) (total : Nat) :
    ∀ k d created f, created < total →
      weekdays.contains (jsWeekday (d + k)) = true →
      (∀ j, j < k → ¬ weekdays.contains (jsWeekday (d + j)) = true) →
      k < f →
      seriesWalk weekdays total f d created
        = (seriesWalk weekdays total (f - (k + 1)) (d + k + 1) (created + 1)).map
            (fun ds => (d + k) :: ds) := by
  intro k
  induction k with
  | zero =>
    intro d created f hlt hmatch _ hf
    obtain ⟨f', rfl⟩ : ∃ f', f = f' + 1 := ⟨f - 1, by omega⟩
    rw [Nat.add_zero] at hmatch
    simp only [seriesWalk]
    rw [if_neg (by omega : ¬ total ≤ created), if_pos hmatch]
    simp
  | succ k ih =>
    intro d created f hlt hmatch hmin hf
    obtain ⟨f', rfl⟩ : ∃ f', f = f' + 1 := ⟨f - 1, by omega⟩
    simp only [seriesWalk]
    rw [if_neg (by omega : ¬ total ≤ created),
      if_neg (by simpa using hmin 0 (Nat.succ_pos k))]
    have hm2 : weekdays.contains (jsWeekday (d + 1 + k)) = true := by
      rw [show d + 1 + k = d + (k + 1) from by omega]
      exact hmatch
    have hmin2 : ∀ j, j < k → ¬ weekdays.contains (jsWeekday (d + 1 + j)) = true := by
      intro j hj
      rw [show d + 1 + j = d + (j + 1) from by omega]
      exact hmin (j + 1) (by omega)
    rw [show f' + 1 - (k + 1 + 1) = f' - (k + 1) from by omega,
      show d + (k + 1) = d + 1 + k from by omega]
    exact ih (d + 1) created f' hlt hm2 hmin2 (by omega)

theorem seriesWalk_spec (weekdays : List Nat) (total : Nat)
    (hex : ∃ w ∈ weekdays, w < 7) :
    ∀ n created d f, created + n = total → 7 * n ≤ f →
      ∃ dates, seriesWalk weekdays total f d created = some dates
        ∧ dates.length = n
        ∧ List.Pairwise (· < ·) dates
        ∧ ∀ x ∈ dates, d ≤ x ∧ weekdays.contains (jsWeekday x) = true := by
  intro n
  induction n with
  | zero =>
    intro created d f hsum _
    exact ⟨[], seriesWalk_done weekdays total f d created (by omega), rfl,
      List.Pairwise.nil, by simp⟩
  | succ n ih =>
    intro created d f hsum hf
    rcases exists_match_within_week weekdays hex d with ⟨k, hk7, hkm⟩
    have hexk : ∃ j, weekdays.contains (jsWeekday (d + j)) = true := ⟨k, hkm⟩
    obtain ⟨k0, hk0m, hk0min, hk0le⟩ :
        ∃ k0, weekdays.contains (jsWeekday (d + k0)) = true
          ∧ (∀ j, j < k0 → ¬ weekdays.contains (jsWeekday (d + j)) = true)
          ∧ k0 ≤ k :=
      ⟨Nat.find hexk, Nat.find_spec hexk, fun j hj => Nat.find_min hexk hj,
        Nat.find_min' hexk hkm⟩
    have hstep := seriesWalk_skip weekdays total k0 d created f (by omega) hk0m hk0min
      (by omega)
    rcases ih (created + 1) (d + k0 + 1) (f - (k0 + 1)) (by omega) (by omega) with
      ⟨dates, hwalk, hlen, hpair, hall⟩
    refine ⟨(d + k0) :: dates, ?_, by simp [hlen], ?_, ?_⟩
    · rw [hstep, hwalk]
      rfl
    · refine List.pairwise_cons.mpr ⟨fun x hx => ?_, hpair⟩
      have := (hall x hx).1
      omega
    · intro x hx
      rcases List.mem_cons.mp hx with rfl | hx'
      · exact ⟨by omega, hk0m⟩
      · rcases hall x hx' with ⟨hge, hcont⟩
        exact ⟨by omega, hcont⟩

theorem mkSeriesEvents_length (rule : SeriesInput) (sid : String) (eventId : Nat → String) :
    ∀ ds i, (mkSeriesEvents rule sid eventId ds i).length = ds.length
  | [], _ => rfl
  | d :: ds, i => by
    simp [mkSeriesEvents, mkSeriesEvents_length rule sid eventId ds (i + 1)]

theorem mkSeriesEvents_mem (rule : SeriesInput) (sid : String) (eventId : Nat → String) :
    ∀ ds i e, e ∈ mkSeriesEvents rule sid eventId ds i →
      e.date ∈ ds ∧ e.status = EvStatus.scheduled ∧ e.seriesId = some sid
        ∧ e.type = rule.type ∧ e.memberId = rule.memberId ∧ e.groupId = rule.groupId
        ∧ e.time = rule.time ∧ e.duration = rule.duration
  | [], _, e => by simp [mkSeriesEvents]
  | d :: ds, i, e => by
    intro he
    rcases List.mem_cons.mp he with rfl | he'
    · exact ⟨List.mem_cons_self _ _, rfl, rfl, rfl, rfl, rfl, rfl, rfl⟩
    · rcases mkSeriesEvents_mem rule sid eventId ds (i + 1) e he' with ⟨h1, hrest⟩
      exact ⟨List.mem_cons_of_mem d h1, hrest⟩

theorem mkSeriesEvents_pairwise (rule : SeriesInput) (sid : String) (eventId : Nat → String) :
    ∀ ds i, List.Pairwise (· < ·) ds →
      List.Pairwise (fun a b => a.date < b.date) (mkSeriesEvents rule sid eventId ds i)
  | [], _, _ => List.Pairwise.nil
  | d :: ds, i, hp => by
    rcases List.pairwise_cons.mp hp with ⟨hd, hp'⟩
    refine List.pairwise_cons.mpr
      ⟨?_, mkSeriesEvents_pairwise rule sid eventId ds (i + 1) hp'⟩
    intro e he
    exact hd e.date (mkSeriesEvents_mem rule sid eventId ds (i + 1) e he).1

/-! ### Claim C3: series expansion on valid input -/

/-- Claim C3: for a valid rule (non-empty weekday set of ordinals 0–6,
`sessionsTotal ≥ 1`), the expansion loop terminates (within `7 * sessionsTotal`
day steps) and `createSeries` appends exactly `sessionsTotal` events — each
scheduled, each dated on a weekday of the rule at or after the start date, in
strictly ascending date order, all sharing the newly generated series id — and
appends the series record carrying that id. -/
theorem claim_c3 (s : AppData) (rule : SeriesInput) (sid : String) (eventId : Nat → String)
    (hne : rule.weekdays ≠ []) (hval : ∀ w ∈ rule.weekdays, w ≤ 6)
    (_hpos : 1 ≤ rule.sessionsTotal) :
    ∃ dates,
      seriesWalk rule.weekdays rule.sessionsTotal (7 * rule.sessionsTotal)
          rule.startDate 0 = some dates
      ∧ createSeries s rule sid eventId (7 * rule.sessionsTotal)
          = some { s with
              series := s.series ++ [mkSeries rule sid]
              events := s.events ++ mkSeriesEvents rule sid eventId dates 0 }
      ∧ (mkSeriesEvents rule sid eventId dates 0).length = rule.sessionsTotal
      ∧ (∀ e ∈ mkSeriesEvents rule sid eventId dates 0,
          e.status = EvStatus.scheduled ∧ e.seriesId = some sid
            ∧ rule.startDate ≤ e.date ∧ jsWeekday e.date ∈ rule.weekdays)
      ∧ List.Pairwise (fun a b => a.date < b.date)
          (mkSeriesEvents rule sid eventId dates 0) := by
  have hex : ∃ w ∈ rule.weekdays, w < 7 := by
    rcases List.exists_mem_of_ne_nil rule.weekdays hne with ⟨w, hw⟩
    exact ⟨w, hw, by have := hval w hw; omega⟩
  rcases seriesWalk_spec rule.weekdays rule.sessionsTotal hex rule.sessionsTotal 0
      rule.startDate (7 * rule.sessionsTotal) (by omega) (le_refl _) with
    ⟨dates, hwalk, hlen, hpair, hall⟩
  refine ⟨dates, hwalk, ?_, ?_, ?_, ?_⟩
  · simp [createSeries, hwalk]
  · rw [mkSeriesEvents_length rule sid eventId dates 0, hlen]
  · intro e he
    rcases mkSeriesEvents_mem rule sid eventId dates 0 e he with
      ⟨hdate, hst, hsid, _, _, _, _, _⟩
    rcases hall e.date hdate with ⟨hge, hcont⟩
    exact ⟨hst, hsid, hge, List.elem_iff.mp hcont⟩
  · exact mkSeriesEvents_pairwise rule sid eventId dates 0 hpair

theorem claim_c3_witness :
    ∃ dates,
      seriesWalk cRule13.weekdays cRule13.sessionsTotal (7 * cRule13.sessionsTotal)
          cRule13.startDate 0 = some dates
      ∧ createSeries cSnapNoEvents cRule13 "sid" (fun _ => "e") (7 * cRule13.sessionsTotal)
          = some { cSnapNoEvents with
              series := cSnapNoEvents.series ++ [mkSeries cRule13 "sid"]
              events := cSnapNoEvents.events
                ++ mkSeriesEvents cRule13 "sid" (fun _ => "e") dates 0 }
      ∧ (mkSeriesEvents cRule13 "sid" (fun _ => "e") dates 0).length = cRule13.sessionsTotal
      ∧ (∀ e ∈ mkSeriesEvents cRule13 "sid" (fun _ => "e") dates 0,
          e.status = EvStatus.scheduled ∧ e.seriesId = some "sid"
            ∧ cRule13.startDate ≤ e.date ∧ jsWeekday e.date ∈ cRule13.weekdays)
      ∧ List.Pairwise (fun a b => a.date < b.date)
          (mkSeriesEvents cRule13 "sid" (fun _ => "e") dates 0) :=
  claim_c3 cSnapNoEvents cRule13 "sid" (fun _ => "e") (by decide) (by decide) (by decide)

/-! ### Claim C4 (code bug): no input validation in createSeries -/

theorem seriesWalk_empty_weekdays : ∀ fuel d, seriesWalk [] 1 fuel d 0 = none
  | 0, d => by simp [seriesWalk]
  | fuel + 1, d => by
    simp only [seriesWalk]
    rw [if_neg (by omega : ¬ (1 : Nat) ≤ 0), if_neg (by simp)]
    exact seriesWalk_empty_weekdays fuel (d + 1)

/-- Claim C4 evaluated against the code: `createSeries` performs no
validation. With `sessionsTotal = 0` it silently appends the Series record
(one more series, no events, no error — the snapshot IS mutated), and with an
empty weekday set and `sessionsTotal = 1` the expansion loop never terminates
(no fuel bound suffices), instead of returning a validation error. -/
theorem claim_c4_bug :
    ((createSeries cSnapNoEvents cRuleZero "sid" (fun _ => "e") 0).map
        (fun s' => (s'.series, s'.events.length)) = some ([mkSeries cRuleZero "sid"], 0))
    ∧ cRuleZero.sessionsTotal = 0 ∧ cRuleZero.weekdays = [] ∧ cSnapNoEvents.series = []
    ∧ (∀ fuel d, seriesWalk [] 1 fuel d 0 = none) := by
  refine ⟨by decide, rfl, rfl, rfl, seriesWalk_empty_weekdays⟩

theorem claim_c7_witness :
    cEvDangling ∈ (deleteMember cSnapDangling "m1").events ↔
      cEvDangling ∈ cSnapDangling.events ∧ cEvDangling.memberId ≠ some "m1" ∧
        ∀ gid, cEvDangling.groupId = some gid →
          gid ∈ (survivingGroups cSnapDangling "m1").map GroupSession.id :=
  (claim_c7 cSnapDangling "m1").2.2.2.2.1 cEvDangling
